import Mathlib

/-!
Verification of the pdf2md core (`pdf2md.py`): font-size statistics and
heading classification, paragraph reassembly with the CJK join rule,
bookmark parsing, page-range computation, and batch path building.

The Python code is shallowly embedded: dictionaries become ordered
association lists (insertion order preserved, as in CPython), `list.sort`
and `sorted` become a stable insertion sort, float font sizes become
rationals, and functions that may raise return `Except`.
-/

namespace Pdf2Md

/-! ### Generic string and number helpers -/

/-- Model of Python `str.strip()`: drop whitespace from both ends. -/
def pyStrip (s : String) : String :=
  String.mk (((s.data.dropWhile Char.isWhitespace).reverse.dropWhile Char.isWhitespace).reverse)

/-- Digit list of `n` in base 10, most significant first.  Fuel-based so the
kernel can evaluate it; `fuel > n` is always sufficient. -/
def natDigitCharsAux : Nat → Nat → List Char
  | 0, _ => []
  | fuel + 1, n =>
    if n < 10 then [Nat.digitChar n]
    else natDigitCharsAux fuel (n / 10) ++ [Nat.digitChar (n % 10)]

/-- Decimal digit characters of a natural number, e.g. `120 ↦ ['1','2','0']`. -/
def natDigitChars (n : Nat) : List Char := natDigitCharsAux (n + 1) n

/-- Decimal rendering of a natural number. -/
def natDecimal (n : Nat) : String := String.mk (natDigitChars n)

/-- Decimal rendering of an integer. -/
def intDecimal (i : Int) : String :=
  if i < 0 then "-" ++ natDecimal (-i).toNat else natDecimal i.toNat

/-- Model of the Python format spec `{seq:02d}`: pad with a leading zero to
at least two digits. -/
def zeroPad2 (n : Nat) : String :=
  if n < 10 then "0" ++ natDecimal n else natDecimal n

/-- Numeric value of a decimal digit character. -/
def digitVal (c : Char) : Nat := c.toNat - '0'.toNat

/-- Value of a digit-character list, most significant first. -/
def digitsVal (l : List Char) : Nat := l.foldl (fun a c => 10 * a + digitVal c) 0

/-- Checks the digit shape accepted by Python `int(...)` after the optional
sign: digit groups separated by single underscores, starting and ending with
a digit.  The flag records whether the previous character was a digit. -/
def pyIntDigitsOk : List Char → Bool → Bool
  | [], prevDigit => prevDigit
  | c :: rest, prevDigit =>
    if c.isDigit then pyIntDigitsOk rest true
    else if c = '_' then prevDigit && pyIntDigitsOk rest false
    else false

/-- Numeric value of a digit string, ignoring group underscores. -/
def digitsToNat (l : List Char) : Nat :=
  (l.filter (fun c => c.isDigit)).foldl (fun a c => 10 * a + digitVal c) 0

/-- Model of Python `int(str)`: strip whitespace, optional sign, then
underscore-grouped decimal digits; `none` models `ValueError`. -/
def pyInt (s : String) : Option Int :=
  match (pyStrip s).data with
  | '-' :: rest => if pyIntDigitsOk rest false then some (-(digitsToNat rest : Int)) else none
  | '+' :: rest => if pyIntDigitsOk rest false then some ((digitsToNat rest : Int)) else none
  | ds => if pyIntDigitsOk ds false then some ((digitsToNat ds : Int)) else none

/-- Model of Python `round(x, 1)`: `⌊10q + 1/2⌋ / 10`, written over the
numerator and denominator so it evaluates by reduction (the floor of
`10q + 1/2` is `⌊(20 num + den) / (2 den)⌋`).  Half-way cases (where
Python uses banker's rounding on floats) are never exercised here. -/
def pyRound1 (q : ℚ) : ℚ :=
  Rat.divInt (Int.fdiv (20 * q.num + (q.den : Int)) (2 * (q.den : Int))) 10

/-- Model of Python `range(a, b)` over integers. -/
def pyRange (a b : Int) : List Int :=
  (List.range (b - a).toNat).map (fun k => a + (k : Int))

/-! ### Stable insertion sort (model of CPython's stable `list.sort`) -/

/-- Insert `x` before the first element `y` with `le x y`; with a
less-or-equal comparator this keeps equal keys in arrival order. -/
def insertOrd {α : Type _} (le : α → α → Bool) (x : α) : List α → List α
  | [] => [x]
  | y :: ys => if le x y then x :: y :: ys else y :: insertOrd le x ys

/-- Stable insertion sort with comparator `le`. -/
def sortOrd {α : Type _} (le : α → α → Bool) : List α → List α
  | [] => []
  | x :: xs => insertOrd le x (sortOrd le xs)

/-! ### CJK detection (`is_cjk_char` / `is_cjk_text`) -/

/-- Code-point ranges of the Unicode blocks whose character names contain
`CJK`, `HIRAGANA`, `KATAKANA` or `HANGUL`; models the
`unicodedata.name`-substring test of `is_cjk_char`. -/
def cjkRanges : List (Nat × Nat) :=
  [(0x1100, 0x11FF), (0x2E80, 0x2EFF), (0x3040, 0x309F), (0x30A0, 0x30FF),
   (0x3130, 0x318F), (0x31F0, 0x31FF), (0x3400, 0x4DBF), (0x4E00, 0x9FFF),
   (0xA960, 0xA97F), (0xAC00, 0xD7FF), (0xF900, 0xFAFF), (0xFF65, 0xFFDC),
   (0x20000, 0x2A6DF), (0x2A700, 0x2EBEF), (0x2F800, 0x2FA1F)]

/-- Model of `is_cjk_char`: character belongs to a CJK-family block. -/
def isCjkChar (c : Char) : Bool :=
  cjkRanges.any (fun r => decide (r.1 ≤ c.toNat) && decide (c.toNat ≤ r.2))

/-- Model of `is_cjk_text`: the ratio of CJK characters to non-whitespace
characters strictly exceeds 0.3 (the float literal `0.3` is modelled as the
rational `3/10`; the quotients compared are exactly representable here). -/
def isCjkText (text : String) : Bool :=
  if text = "" then false
  else
    let total := (text.data.filter (fun c => !c.isWhitespace)).length
    if total = 0 then false
    else
      let cjkCount := (text.data.filter isCjkChar).length
      decide (Rat.divInt (cjkCount : Int) (total : Int) > Rat.divInt 3 10)

/-- Spec-side formulation of CJK dominance: strictly more than 0.3 of the
non-whitespace characters are CJK-family, stated with integer arithmetic. -/
def cjkDominant (text : String) : Prop :=
  3 * (text.data.filter (fun c => !c.isWhitespace)).length <
    10 * (text.data.filter (fun c => isCjkChar c && !c.isWhitespace)).length

instance (text : String) : Decidable (cjkDominant text) := by
  unfold cjkDominant; infer_instance

/-! ### Document data model (interface of the external PDF reader) -/

/-- A text span: smallest unit carrying a font size. -/
structure Span where
  text : String
  size : ℚ
deriving DecidableEq

/-- A visual line: ordered spans. -/
structure Line where
  spans : List Span
deriving DecidableEq

/-- A layout block; `type = 0` marks a text block, anything else is skipped. -/
structure Block where
  type : Int
  lines : List Line
deriving DecidableEq

/-- A page is its list of blocks. -/
abbrev Page := List Block

/-- A document is its list of pages. -/
abbrev Doc := List Page

/-- Page access `doc[idx]`; out-of-range access never occurs on the flows
modelled here, and is mapped to an empty page. -/
def pageAt (doc : Doc) (i : Int) : Page :=
  if i < 0 then [] else doc.getD i.toNat []

/-! ### Font statistics and heading classification -/

/-- `counter[k] += n` on an ordered association list (CPython dict:
existing keys keep their position, new keys are appended). -/
def counterAdd : List (ℚ × Nat) → ℚ → Nat → List (ℚ × Nat)
  | [], k, n => [(k, n)]
  | (k', v) :: rest, k, n =>
    if k' = k then (k', v + n) :: rest else (k', v) :: counterAdd rest k n

/-- Model of `collect_font_stats`: first pass, counts non-whitespace
characters per rounded font size over the requested pages. -/
def collectFontStats (doc : Doc) (pageIndices : List Int) : List (ℚ × Nat) :=
  pageIndices.foldl (fun acc idx =>
    (pageAt doc idx).foldl (fun acc block =>
      if block.type ≠ 0 then acc
      else block.lines.foldl (fun acc line =>
        line.spans.foldl (fun acc span =>
          let text := pyStrip span.text
          if text ≠ "" then counterAdd acc (pyRound1 span.size) text.data.length
          else acc) acc) acc) acc) []

/-- Model of `Counter.most_common(1)[0][0]`: key with the maximal count,
first-inserted key winning ties (CPython's stable ordering). -/
def mostCommonKey : List (ℚ × Nat) → ℚ
  | [] => 0
  | x :: xs => (xs.foldl (fun b y => if y.2 > b.2 then y else b) x).1

/-- Model of `build_heading_map`: sizes strictly above the body size, sorted
descending, mapped to levels 1, 2, … clamped at 6. -/
def buildHeadingMap (sizes : List ℚ) (bodySize : ℚ) : List (ℚ × Nat) :=
  let headingSizes := sortOrd (fun a b => decide (b ≤ a)) (sizes.filter (fun s => decide (s > bodySize)))
  headingSizes.enum.map (fun p => (p.2, min (p.1 + 1) 6))

/-! ### Page rendering -/

/-- Lookup in the heading map (Python `dict.get`). -/
def dictLookupQ : List (ℚ × Nat) → ℚ → Option Nat
  | [], _ => none
  | (k, v) :: rest, q => if k = q then some v else dictLookupQ rest q

/-- Model of `process_line`: merged text of the non-blank spans and the
maximal rounded size among them. -/
def processLine (line : Line) : String × ℚ :=
  let nonBlank := line.spans.filter (fun s => pyStrip s.text ≠ "")
  let merged := pyStrip (String.join (nonBlank.map (fun s => s.text)))
  let maxSize := nonBlank.foldl (fun m s => max m (pyRound1 s.size)) 0
  (merged, maxSize)

/-- Model of `merge_lines`: CJK text joins with no separator, other text
with a single space. -/
def mergeLines (lines : List String) (cjkMode : Bool) : String :=
  if cjkMode then String.join lines else String.intercalate " " lines

/-- The paragraph flush used by `process_page`: the join mode is decided by
`is_cjk_text` on the concatenated buffered lines. -/
def flushPending (pending : List String) : String :=
  mergeLines pending (isCjkText (String.join pending))

/-- `'#' * level`. -/
def headingMarker (level : Nat) : String := String.mk (List.replicate level '#')

/-- Model of `process_page`: per text block, headings are emitted directly
and runs of plain lines are buffered and flushed as paragraphs. -/
def processPage (page : Page) (headingMap : List (ℚ × Nat)) (bodySize : ℚ) : String :=
  let pageParts := page.foldl (fun pageParts block =>
    if block.type ≠ 0 then pageParts
    else
      let st := block.lines.foldl (fun (st : List String × List String) line =>
        let bp := st.1
        let pending := st.2
        let pr := processLine line
        if pr.1 = "" then (bp, pending)
        else
          match dictLookupQ headingMap pr.2 with
          | some level =>
            let bp := if pending ≠ [] then bp ++ [flushPending pending] else bp
            (bp ++ [headingMarker level ++ " " ++ pr.1], [])
          | none => (bp, pending ++ [pr.1])) ([], [])
      let blockParts := if st.2 ≠ [] then st.1 ++ [flushPending st.2] else st.1
      if blockParts ≠ [] then pageParts ++ [String.intercalate "\n\n" blockParts]
      else pageParts) []
  String.intercalate "\n\n" pageParts

/-! ### Conversion entry point -/

/-- Error taxonomy of the spec for the conversion entry point.  Modelled
from the spec: the source `convert` has no raise site of its own — the
`Except` channel below records that it never produces this error. -/
inductive ConvError where
  | noTextExtracted
deriving DecidableEq

/-- Character scan replacing every occurrence of the `{n}` substitution
point with the rendered page number. -/
def formatPageSepAux (num : List Char) : List Char → List Char
  | '{' :: 'n' :: '}' :: rest => num ++ formatPageSepAux num rest
  | c :: rest => c :: formatPageSepAux num rest
  | [] => []

/-- Model of `str.format` on the page-separator template: replace every
occurrence of the substitution point with the 1-based page number. -/
def formatPageSep (tpl : String) (n : Int) : String :=
  String.mk (formatPageSepAux (intDecimal n).data tpl.data)

/-- `list(range(len(doc)))`: all page indices of the document. -/
def allPages (doc : Doc) : List Int :=
  (List.range doc.length).map (fun k => (k : Int))

/-- Model of `convert`: resolve an empty page selection to all pages, build
the font histogram, and either warn and return the empty string (empty
histogram, first component `true`) or render every selected page. -/
def convert (doc : Doc) (pageIndices : List Int) (pageSep : String) :
    Except ConvError (Bool × String) :=
  let idx := if pageIndices = [] then allPages doc else pageIndices
  let sizeCounter := collectFontStats doc idx
  if sizeCounter = [] then .ok (true, "")
  else
    let bodySize := mostCommonKey sizeCounter
    let headingMap := buildHeadingMap (sizeCounter.map Prod.fst) bodySize
    let sections := idx.enum.map (fun p =>
      let pageNum := p.2 + 1
      let content := processPage (pageAt doc p.2) headingMap bodySize
      let parts := (if p.1 > 0 then ["---", ""] else []) ++
        [formatPageSep pageSep pageNum, ""] ++
        (if content ≠ "" then [content] else [])
      String.intercalate "\n" parts)
    .ok (false, String.intercalate "\n\n" sections ++ "\n")

/-! ### Filename sanitization -/

/-- The characters removed by `sanitize_filename`. -/
def illegalChars : List Char := ['\\', '/', ':', '*', '?', '"', '<', '>', '|']

/-- Replace every maximal whitespace run by a single underscore (model of
`re.sub(r"\s+", "_", s)`); the flag records a pending run. -/
def collapseWsAux : List Char → Bool → List Char
  | [], _ => []
  | c :: rest, prevWs =>
    if c.isWhitespace then
      if prevWs then collapseWsAux rest true else '_' :: collapseWsAux rest true
    else c :: collapseWsAux rest false

/-- Model of `sanitize_filename`: drop illegal characters, strip, collapse
whitespace runs to underscores, truncate to 80, fall back to `untitled`. -/
def sanitizeFilename (name : String) : String :=
  let s1 := String.mk (name.data.filter (fun c => !illegalChars.contains c))
  let s2 := pyStrip s1
  let s3 := String.mk (collapseWsAux s2.data false)
  let s4 := String.mk (s3.data.take 80)
  if s4 = "" then "untitled" else s4

/-! ### Outline parsing -/

/-- An XML `ITEM` node: `NAME` and `PAGE` attribute values (missing
attributes already defaulted to `""`) and nested child items. -/
inductive XmlNode where
  | mk (name : String) (page : String) (children : List XmlNode)

/-- Name attribute of a node. -/
def XmlNode.nameOf : XmlNode → String
  | .mk n _ _ => n

/-- Page attribute of a node. -/
def XmlNode.pageOf : XmlNode → String
  | .mk _ p _ => p

/-- Children of a node. -/
def XmlNode.childrenOf : XmlNode → List XmlNode
  | .mk _ _ c => c

/-- Model of `_walk_xml_items` on a list of sibling `ITEM` nodes: keep nodes
whose stripped name is non-empty and whose raw page attribute is non-empty
(Python truthiness), and always recurse into children at depth + 1. -/
def walkXmlItems : List XmlNode → Int → List (String × String × Int)
  | [], _ => []
  | XmlNode.mk name page children :: rest, depth =>
    (if pyStrip name ≠ "" ∧ page ≠ "" then [(pyStrip name, page, depth)] else []) ++
      walkXmlItems children (depth + 1) ++ walkXmlItems rest depth

/-- A validated outline item: name, 1-based page after offset, depth. -/
structure OItem where
  name : String
  page : Int
  depth : Int
deriving DecidableEq, Inhabited

/-- A chapter: name, 0-based inclusive page range, depth. -/
structure Chapter where
  name : String
  start : Int
  stop : Int
  depth : Int
deriving DecidableEq, Inhabited

/-- Error taxonomy of `BookmarkError`, one constructor per raise site. -/
inductive BookmarkError where
  | noItems
  | badPage (pageStr : String) (name : String)
  | outOfRange (page : Int) (total : Int) (name : String)
  | noToc
  | noValidItems
deriving DecidableEq

/-- The exact message text raised with each `BookmarkError`. -/
def renderBookmarkError : BookmarkError → String
  | .noItems => "书签文件中未找到任何 ITEM 条目"
  | .badPage ps n => "无效的页码: " ++ ps ++ "（章节: " ++ n ++ "）"
  | .outOfRange p total n =>
      "页码 " ++ intDecimal p ++ " 越界，PDF 共 " ++ intDecimal total ++ " 页（章节: " ++ n ++ "）"
  | .noToc => "PDF 文件中未找到内置书签（目录）"
  | .noValidItems => "PDF 内置书签中未找到有效条目"

/-- The offending item's name carried by an item-caused error. -/
def bookmarkErrorName : BookmarkError → Option String
  | .badPage _ n => some n
  | .outOfRange _ _ n => some n
  | _ => none

/-- Comparator of the `items.sort(key=lambda x: x[1])` call. -/
def pageLe (a b : OItem) : Bool := decide (a.page ≤ b.page)

/-- Stable sort of outline items by their 1-based page. -/
def sortByPage (items : List OItem) : List OItem := sortOrd pageLe items

/-- Loop body of `_compute_page_ranges` at index `i` of the sorted list:
`start = page - 1`, `end = max(items[i+1].page - 2, start)` when a next item
exists, else `totalPages - 1`. -/
def rangeAt (sorted : List OItem) (totalPages : Int) (i : Nat) : Chapter :=
  let it := sorted.getD i default
  let start := it.page - 1
  let stop :=
    if i + 1 < sorted.length then max ((sorted.getD (i + 1) default).page - 2) start
    else totalPages - 1
  ⟨it.name, start, stop, it.depth⟩

/-- Model of `_compute_page_ranges`: sort stably by page, then emit the
range of every index. -/
def computePageRanges (items : List OItem) (totalPages : Int) : List Chapter :=
  let sorted := sortByPage items
  (List.range sorted.length).map (rangeAt sorted totalPages)

/-- Spec-side description of RangeComputer on an already-sorted item list:
`end0 = nextItem.page - 2` clamped to at least `start0` when a next item
exists, otherwise `totalPages - 1`. -/
def rangesSpec : List OItem → Int → List Chapter
  | [], _ => []
  | [x], total => [⟨x.name, x.page - 1, total - 1, x.depth⟩]
  | x :: y :: rest, total =>
    ⟨x.name, x.page - 1, max (y.page - 2) (x.page - 1), x.depth⟩ :: rangesSpec (y :: rest) total

/-- Union of the `[start, stop]` intervals of a chapter list. -/
def chaptersUnion (cs : List Chapter) : Set Int :=
  cs.foldr (fun c s => Set.Icc c.start c.stop ∪ s) ∅

/-- Validation loop of `parse_bookmarks`: parse each page attribute, apply
the offset, and bound-check, failing on the first offending item. -/
def buildXmlItems : List (String × String × Int) → Int → Int → Except BookmarkError (List OItem)
  | [], _, _ => .ok []
  | (name, pageStr, depth) :: rest, off, total =>
    match pyInt pageStr with
    | none => .error (.badPage pageStr name)
    | some p =>
      let page := p + off
      if page < 1 ∨ page > total then .error (.outOfRange page total name)
      else (buildXmlItems rest off total).map (fun items => ⟨name, page, depth⟩ :: items)

/-- Model of `parse_bookmarks`: walk the XML tree (given as the root's
direct `ITEM` children), validate, and compute page ranges. -/
def parseBookmarks (root : List XmlNode) (totalPages : Int) (pageOffset : Int) :
    Except BookmarkError (List Chapter) :=
  let raw := walkXmlItems root 1
  if raw = [] then .error .noItems
  else (buildXmlItems raw pageOffset totalPages).map (fun items => computePageRanges items totalPages)

/-- Collection loop of `parse_bookmarks_from_toc` over the embedded table of
contents `[(level, title, page_1based), ...]`: blank titles are skipped,
pages are offset and bound-checked. -/
def collectTocItems : List (Int × String × Int) → Int → Int → Except BookmarkError (List OItem)
  | [], _, _ => .ok []
  | (level, title, p1) :: rest, off, total =>
    let name := pyStrip title
    if name = "" then collectTocItems rest off total
    else
      let page := p1 + off
      if page < 1 ∨ page > total then .error (.outOfRange page total name)
      else (collectTocItems rest off total).map (fun items => ⟨name, page, level⟩ :: items)

/-- Model of `parse_bookmarks_from_toc`. -/
def parseBookmarksFromToc (toc : List (Int × String × Int)) (totalPages : Int) (pageOffset : Int) :
    Except BookmarkError (List Chapter) :=
  if toc = [] then .error .noToc
  else
    match collectTocItems toc pageOffset totalPages with
    | .error e => .error e
    | .ok items =>
      if items = [] then .error .noValidItems
      else .ok (computePageRanges items totalPages)

/-- The usable entries of a toc list: those with a non-blank title. -/
def tocUsable (toc : List (Int × String × Int)) : List (Int × String × Int) :=
  toc.filter (fun e => pyStrip e.2.1 ≠ "")

/-! ### Batch split (`batch_convert_to_zip`) -/

/-- Lookup in the `path_context` dict (`level -> sanitized name`). -/
def dictLookupIS : List (Int × String) → Int → Option String
  | [], _ => none
  | (k, v) :: rest, q => if k = q then some v else dictLookupIS rest q

/-- Dict assignment `path_context[level] = name` (replace in place or
append, preserving CPython insertion order). -/
def dictSetIS : List (Int × String) → Int → String → List (Int × String)
  | [], k, v => [(k, v)]
  | (k', v') :: rest, k, v =>
    if k' = k then (k, v) :: rest else (k', v') :: dictSetIS rest k v

/-- `counters.get(parent_key, 0)`. -/
def cntGet : List (String × Nat) → String → Nat
  | [], _ => 0
  | (k, v) :: rest, q => if k = q then v else cntGet rest q

/-- `counters[parent_key] = v`. -/
def cntSet : List (String × Nat) → String → Nat → List (String × Nat)
  | [], k, v => [(k, v)]
  | (k', v') :: rest, k, v =>
    if k' = k then (k, v) :: rest else (k', v') :: cntSet rest k v

/-- Markdown text written for one chapter (errors cannot occur here). -/
def mdTextOf (doc : Doc) (sep : String) (start stop : Int) : String :=
  match convert doc (pyRange start (stop + 1)) sep with
  | .ok r => r.2
  | .error _ => ""

/-- The parent directory key built from the cleared path context: the
stored names for the keys below `depth`, joined with `/` in ascending key
order (`"/".join(path_context[l] for l in sorted(path_context) if l < level)`). -/
def parentKeyOf (ctx1 : List (Int × String)) (depth : Int) : String :=
  String.intercalate "/"
    (((sortOrd (fun a b => decide (a ≤ b)) (ctx1.map Prod.fst)).filter
      (fun l => decide (l < depth))).filterMap (fun l => dictLookupIS ctx1 l))

/-- The loop body state of `batch_convert_to_zip`, threaded over the
chapter list: emits `(archive path, markdown text)` pairs. -/
def batchAux (doc : Doc) (sep : String) :
    List Chapter → List (Int × String) → List (String × Nat) → List (String × String)
  | [], _, _ => []
  | c :: rest, ctx, cnt =>
    let ctx1 := ctx.filter (fun kv => decide (kv.1 < c.depth))
    let parentKey := parentKeyOf ctx1 c.depth
    let seq := cntGet cnt parentKey + 1
    let cnt1 := cntSet cnt parentKey seq
    let filename := zeroPad2 seq ++ "_" ++ sanitizeFilename c.name ++ ".md"
    let fullPath := if parentKey ≠ "" then parentKey ++ "/" ++ filename else filename
    let ctx2 := dictSetIS ctx1 c.depth (sanitizeFilename c.name)
    (fullPath, mdTextOf doc sep c.start c.stop) :: batchAux doc sep rest ctx2 cnt1

/-- Model of `batch_convert_to_zip`, returning the ordered archive entries
instead of zip bytes. -/
def batchConvertToZip (doc : Doc) (sep : String) (chapters : List Chapter) :
    List (String × String) :=
  batchAux doc sep chapters [] []

/-- The file-name shape of every archive entry: `{seq:02d}_{sanitizedName}.md`. -/
def fileNameOf (seq : Nat) (name : String) : String :=
  zeroPad2 seq ++ "_" ++ sanitizeFilename name ++ ".md"

/-- The shape of every archive path: the file name, prefixed by
`parentKey/` when the parent key is non-empty. -/
def pathOf (pk : String) (seq : Nat) (name : String) : String :=
  if pk ≠ "" then pk ++ "/" ++ fileNameOf seq name else fileNameOf seq name

/-- Whether an `Except` value is an error. -/
def exceptIsError {ε α : Type _} : Except ε α → Bool
  | .error _ => true
  | .ok _ => false

/-- What makes a walked XML entry `(name, pageStr, depth)` fail validation:
a non-numeric page value, or an offset-adjusted page outside `[1, total]`. -/
def entryBad (off total : Int) (e : String × String × Int) : Prop :=
  pyInt e.2.1 = none ∨ ∃ p, pyInt e.2.1 = some p ∧ (p + off < 1 ∨ p + off > total)

/-! ### Concrete inputs used by witnesses and counterexamples -/

/-- A one-page document whose only block is an image block: no text. -/
def docImageOnly : Doc := [[⟨1, [⟨[⟨"image", 12⟩]⟩]⟩]]

/-- A one-page document with a single text span. -/
def docOnePage : Doc := [[⟨0, [⟨[⟨"Hi", 12⟩]⟩]⟩]]

/-- An XML outline whose top item has a whitespace-only `PAGE` attribute. -/
def xmlBlankPage : List XmlNode :=
  [XmlNode.mk "Ch" " " [XmlNode.mk "Sub" "2" []]]

/-! ## Theorems -/

/-! ### Small helpers -/

theorem append_newline_ne_empty (x : String) : x ++ "\n" ≠ "" := by
  intro h
  have h2 : (x ++ "\n").data = ("" : String).data := congrArg String.data h
  rw [String.data_append] at h2
  exact absurd (List.append_eq_nil.mp h2).2 (by decide)

/-! ### Claim C1 -/

/-- Claim C1 (amended): when the font-size histogram is empty after scanning
the resolved page set, `convert` warns (first component `true`), performs no
page rendering, and returns the empty string; it does not raise an error. -/
theorem claim_C1 (doc : Doc) (pageIndices : List Int) (sep : String)
    (h : collectFontStats doc
      (if pageIndices = [] then allPages doc else pageIndices) = []) :
    convert doc pageIndices sep = .ok (true, "") := by
  simp only [convert]
  rw [h]
  simp

/-- Witness for claim C1 at a concrete image-only document. -/
theorem claim_C1_witness :
    collectFontStats docImageOnly
      (if ([] : List Int) = [] then allPages docImageOnly else []) = [] ∧
    convert docImageOnly [] "<!-- Page {n} -->" = .ok (true, "") :=
  ⟨by decide, claim_C1 docImageOnly [] "<!-- Page {n} -->" (by decide)⟩

/-- Counterexample to claim C1 as stated: on an image-only document the
conversion does not fail with a `NoTextExtracted` error — it returns
normally with a warning flag and the empty string. -/
theorem claim_C1_counterexample :
    convert docImageOnly [] "<!-- Page {n} -->" = .ok (true, "") ∧
    convert docImageOnly [] "<!-- Page {n} -->" ≠ .error ConvError.noTextExtracted := by
  constructor
  · rfl
  · intro h
    rw [show convert docImageOnly [] "<!-- Page {n} -->" = Except.ok (true, "") from rfl] at h
    simp at h

/-! ### Claim C10 -/

/-- Claim C10: an empty page-index list makes `convert` process every page
`0 … pageCount - 1`; it neither errors nor, when the document has any text,
returns empty output. -/
theorem claim_C10 (doc : Doc) (sep : String) :
    convert doc [] sep = convert doc (allPages doc) sep
    ∧ (∀ e, convert doc [] sep ≠ .error e)
    ∧ (collectFontStats doc (allPages doc) ≠ [] →
        ∃ s, convert doc [] sep = .ok (false, s) ∧ s ≠ "") := by
  refine ⟨?_, ?_, ?_⟩
  · simp only [convert]
    by_cases hR : allPages doc = []
    · rw [hR]
      simp
    · rw [if_neg hR]
      simp
  · intro e
    simp only [convert]
    split <;> split <;> simp
  · intro h
    simp only [convert, if_true]
    rw [if_neg h]
    exact ⟨_, rfl, append_newline_ne_empty _⟩

/-- Witness for claim C10 at a concrete one-page text document. -/
theorem claim_C10_witness :
    collectFontStats docOnePage (allPages docOnePage) ≠ [] ∧
    ∃ s, convert docOnePage [] "<!-- Page {n} -->" = .ok (false, s) ∧ s ≠ "" :=
  ⟨by decide, (claim_C10 docOnePage "<!-- Page {n} -->").2.2 (by decide)⟩

/-! ### Claim C8 -/

/-- Claim C8 (amended): a node with a blank name (either source) or with an
empty page attribute (XML source) is skipped without error while its
children are still walked at their original depth; but a whitespace-only
(blank yet non-empty) XML page attribute is not skipped — the node is kept
and fails validation as a non-numeric page. -/
theorem claim_C8 :
    (∀ (name page : String) (children rest : List XmlNode) (depth : Int),
      pyStrip name = "" ∨ page = "" →
      walkXmlItems (XmlNode.mk name page children :: rest) depth =
        walkXmlItems children (depth + 1) ++ walkXmlItems rest depth)
    ∧ (∀ (level : Int) (title : String) (p1 : Int) (rest : List (Int × String × Int))
        (off total : Int),
      pyStrip title = "" →
      collectTocItems ((level, title, p1) :: rest) off total = collectTocItems rest off total)
    ∧ (∀ (name page : String) (children rest : List XmlNode) (total off : Int),
      pyStrip name ≠ "" → page ≠ "" → pyInt page = none →
      parseBookmarks (XmlNode.mk name page children :: rest) total off =
        .error (.badPage page (pyStrip name))) := by
  refine ⟨?_, ?_, ?_⟩
  · intro name page children rest depth h
    rcases h with h | h <;> simp [walkXmlItems, h]
  · intro level title p1 rest off total h
    simp [collectTocItems, h]
  · intro name page children rest total off h1 h2 h3
    have hcond : pyStrip name ≠ "" ∧ page ≠ "" := ⟨h1, h2⟩
    simp [parseBookmarks, walkXmlItems, buildXmlItems, hcond, h3, Except.map]

/-- Witness for claim C8: a blank-named node is dropped but its child is
still walked one level deeper. -/
theorem claim_C8_witness :
    pyStrip "  " = "" ∧
    walkXmlItems [XmlNode.mk "  " "5" [XmlNode.mk "In" "2" []]] 1 =
      walkXmlItems [XmlNode.mk "In" "2" []] 2 ++ walkXmlItems [] 1 :=
  ⟨by decide, claim_C8.1 "  " "5" [XmlNode.mk "In" "2" []] [] 1 (Or.inl (by decide))⟩

/-- Counterexample to claim C8 as stated: a whitespace-only `PAGE`
attribute does not cause the node to be skipped — the node is kept by the
walk and the parse fails with a non-numeric-page error instead of
succeeding with the child only. -/
theorem claim_C8_counterexample :
    walkXmlItems xmlBlankPage 1 = [("Ch", " ", 1), ("Sub", "2", 2)] ∧
    parseBookmarks xmlBlankPage 10 1 = .error (.badPage " " "Ch") := by
  constructor
  · simp [xmlBlankPage, walkXmlItems, pyStrip]
  · simp [parseBookmarks, xmlBlankPage, walkXmlItems, buildXmlItems, pyInt, pyStrip,
      pyIntDigitsOk, digitsToNat, Except.map]

/-! ### Claim C6 -/

theorem isCjkChar_false_of_small (c : Char) (h : c.toNat < 4352) : isCjkChar c = false := by
  simp [isCjkChar, cjkRanges]
  omega

theorem ws_not_cjk (c : Char) (h : c.isWhitespace = true) : isCjkChar c = false := by
  apply isCjkChar_false_of_small
  simp only [Char.isWhitespace, Bool.or_eq_true, decide_eq_true_eq] at h
  have hc : c = ' ' ∨ c = '\t' ∨ c = '\r' ∨ c = '\n' := by tauto
  rcases hc with h' | h' | h' | h' <;> subst h' <;> decide

theorem filter_cjk_eq (l : List Char) :
    l.filter isCjkChar = l.filter (fun c => isCjkChar c && !c.isWhitespace) := by
  apply List.filter_congr
  intro c _
  cases hc : isCjkChar c
  · simp [hc]
  · cases hw : c.isWhitespace
    · simp [hc, hw]
    · exact absurd (ws_not_cjk c hw) (by simp [hc])

theorem length_filter_cjk_le (l : List Char) :
    (l.filter (fun c => isCjkChar c && !c.isWhitespace)).length ≤
      (l.filter (fun c => !c.isWhitespace)).length := by
  rw [← List.filter_filter]
  exact List.length_filter_le _ _

theorem isCjkText_iff (text : String) : isCjkText text = true ↔ cjkDominant text := by
  unfold isCjkText cjkDominant
  by_cases h0 : text = ""
  · subst h0
    simp
  · rw [if_neg h0]
    by_cases ht : (text.data.filter (fun c => !c.isWhitespace)).length = 0
    · rw [if_pos ht]
      constructor
      · intro h
        exact absurd h (by simp)
      · intro h
        exfalso
        have := length_filter_cjk_le text.data
        omega
    · rw [if_neg ht]
      rw [decide_eq_true_eq]
      have htot : (0 : Int) < ((text.data.filter (fun c => !c.isWhitespace)).length : Int) := by
        exact_mod_cast Nat.pos_of_ne_zero ht
      rw [gt_iff_lt, lt_iff_not_le, Rat.divInt_le_divInt htot (by norm_num : (0:Int) < 10)]
      rw [filter_cjk_eq]
      omega

/-- Claim C6: the paragraph flush joins with no separator exactly when the
buffered text is CJK-dominant (CJK-family characters exceed 0.3 of the
non-whitespace characters), and with a single space otherwise; in
particular on the two scenario inputs. -/
theorem claim_C6 :
    (∀ text, isCjkText text = true ↔ cjkDominant text)
    ∧ (∀ pending, (cjkDominant (String.join pending) →
          flushPending pending = String.join pending)
        ∧ (¬ cjkDominant (String.join pending) →
          flushPending pending = String.intercalate " " pending))
    ∧ flushPending ["你好", "世界"] = "你好世界"
    ∧ flushPending ["hello", "world"] = "hello world" := by
  refine ⟨isCjkText_iff, fun pending => ⟨?_, ?_⟩, by decide, by decide⟩
  · intro h
    unfold flushPending mergeLines
    rw [show isCjkText (String.join pending) = true from (isCjkText_iff _).mpr h]
    simp
  · intro h
    have hf : isCjkText (String.join pending) = false := by
      cases hx : isCjkText (String.join pending)
      · rfl
      · exact absurd ((isCjkText_iff _).mp hx) h
    unfold flushPending mergeLines
    rw [hf]
    simp

/-- Witness for claim C6 at the CJK scenario input. -/
theorem claim_C6_witness :
    cjkDominant (String.join ["你好", "世界"]) ∧
    flushPending ["你好", "世界"] = String.join ["你好", "世界"] :=
  ⟨by decide, (claim_C6.2.1 ["你好", "世界"]).1 (by decide)⟩

/-! ### Stable insertion sort lemmas -/

theorem insertOrd_perm {α : Type _} (le : α → α → Bool) (x : α) (l : List α) :
    List.Perm (insertOrd le x l) (x :: l) := by
  induction l with
  | nil => exact List.Perm.refl _
  | cons y ys ih =>
    unfold insertOrd
    split
    · exact List.Perm.refl _
    · exact (ih.cons y).trans (List.Perm.swap x y ys)

theorem sortOrd_perm {α : Type _} (le : α → α → Bool) (l : List α) :
    List.Perm (sortOrd le l) l := by
  induction l with
  | nil => exact List.Perm.refl _
  | cons x xs ih => exact (insertOrd_perm le x (sortOrd le xs)).trans (ih.cons x)

theorem mem_insertOrd {α : Type _} {le : α → α → Bool} {x a : α} {l : List α} :
    a ∈ insertOrd le x l ↔ a = x ∨ a ∈ l := by
  rw [(insertOrd_perm le x l).mem_iff]
  simp

theorem insertOrd_pairwise {α : Type _} {le : α → α → Bool}
    (total : ∀ a b, le a b = false → le b a = true)
    (htrans : ∀ a b c, le a b = true → le b c = true → le a c = true)
    (x : α) {l : List α} (h : l.Pairwise (fun a b => le a b = true)) :
    (insertOrd le x l).Pairwise (fun a b => le a b = true) := by
  induction l with
  | nil => simp [insertOrd]
  | cons y ys ih =>
    obtain ⟨hy, hys⟩ := List.pairwise_cons.mp h
    unfold insertOrd
    split
    case isTrue hxy =>
      refine List.pairwise_cons.mpr ⟨?_, h⟩
      intro b hb
      rcases List.mem_cons.mp hb with rfl | hb
      · exact hxy
      · exact htrans x y b hxy (hy b hb)
    case isFalse hxy =>
      refine List.pairwise_cons.mpr ⟨?_, ih hys⟩
      intro b hb
      rcases mem_insertOrd.mp hb with rfl | hb
      · exact total b y (by simpa using hxy)
      · exact hy b hb

theorem sortOrd_pairwise {α : Type _} {le : α → α → Bool}
    (total : ∀ a b, le a b = false → le b a = true)
    (htrans : ∀ a b c, le a b = true → le b c = true → le a c = true)
    (l : List α) : (sortOrd le l).Pairwise (fun a b => le a b = true) := by
  induction l with
  | nil => simp [sortOrd]
  | cons x xs ih => exact insertOrd_pairwise total htrans x ih

theorem pageLe_total : ∀ a b : OItem, pageLe a b = false → pageLe b a = true := by
  intro a b h
  simp [pageLe] at *
  omega

theorem pageLe_trans : ∀ a b c : OItem, pageLe a b = true → pageLe b c = true →
    pageLe a c = true := by
  intro a b c h1 h2
  simp [pageLe] at *
  omega

theorem sortByPage_pairwise (items : List OItem) :
    (sortByPage items).Pairwise (fun a b => a.page ≤ b.page) := by
  have h := sortOrd_pairwise pageLe_total pageLe_trans items
  exact h.imp (fun h => by simpa [pageLe] using h)

theorem insertOrd_filter_page (x : OItem) (l : List OItem) (p : Int) :
    (insertOrd pageLe x l).filter (fun it => it.page == p) =
      if x.page = p then x :: l.filter (fun it => it.page == p)
      else l.filter (fun it => it.page == p) := by
  induction l with
  | nil =>
    by_cases hp : x.page = p <;> simp [insertOrd, List.filter_cons, hp]
  | cons y ys ih =>
    unfold insertOrd
    split
    case isTrue hxy =>
      by_cases hp : x.page = p <;> simp [List.filter_cons, hp]
    case isFalse hxy =>
      have hyx : y.page < x.page := by
        simp [pageLe] at hxy
        omega
      by_cases hp : x.page = p
      · have hyp : (y.page == p) = false := by
          subst hp
          simp
          omega
        simp [List.filter_cons, ih, hp, hyp]
      · simp [List.filter_cons, ih, hp]

theorem sortByPage_filter (items : List OItem) (p : Int) :
    (sortByPage items).filter (fun it => it.page == p) =
      items.filter (fun it => it.page == p) := by
  simp only [sortByPage]
  induction items with
  | nil => rfl
  | cons x xs ih =>
    simp only [sortOrd]
    rw [insertOrd_filter_page, ih]
    by_cases hp : x.page = p <;> simp [List.filter_cons, hp]

/-! ### Claim C2 -/

theorem range_map_rangeAt (total : Int) : ∀ l : List OItem,
    (List.range l.length).map (rangeAt l total) = rangesSpec l total := by
  intro l
  induction l with
  | nil => rfl
  | cons x xs ih =>
    rw [List.length_cons, List.range_succ_eq_map, List.map_cons, List.map_map]
    have hcomp : (rangeAt (x :: xs) total ∘ Nat.succ) = rangeAt xs total := by
      funext i
      simp [rangeAt, List.getD_cons_succ, Nat.succ_lt_succ_iff]
    rw [hcomp, ih]
    cases xs with
    | nil => simp [rangesSpec, rangeAt]
    | cons y rest => simp [rangesSpec, rangeAt]

/-- Claim C2: `computePageRanges` stably sorts by page (sortedness and
filter-stability of the sort are stated separately) and then emits exactly
the spec-described ranges; the scenario instance holds. -/
theorem claim_C2 :
    (∀ (items : List OItem) (total : Int),
      computePageRanges items total = rangesSpec (sortByPage items) total)
    ∧ (∀ items : List OItem, (sortByPage items).Pairwise (fun a b => a.page ≤ b.page))
    ∧ (∀ (items : List OItem) (p : Int),
      (sortByPage items).filter (fun it => it.page == p) =
        items.filter (fun it => it.page == p))
    ∧ computePageRanges [⟨"Intro",1,1⟩, ⟨"Ch1",3,1⟩, ⟨"Sec1.1",3,2⟩] 10 =
        [⟨"Intro",0,1,1⟩, ⟨"Ch1",2,2,1⟩, ⟨"Sec1.1",2,9,2⟩] := by
  refine ⟨fun items total => ?_, sortByPage_pairwise, sortByPage_filter, by decide⟩
  simp only [computePageRanges]
  exact range_map_rangeAt total (sortByPage items)

/-! ### Claim C4 -/

theorem enumFrom_map_fst (l : List ℚ) : ∀ n : Nat,
    ((List.enumFrom n l).map (fun p => (p.2, min (p.1 + 1) 6))).map Prod.fst = l := by
  induction l with
  | nil => intro n; rfl
  | cons x xs ih =>
    intro n
    simpa using ih (n + 1)

theorem enumFrom_map_snd (l : List ℚ) : ∀ n : Nat,
    ((List.enumFrom n l).map (fun p => (p.2, min (p.1 + 1) 6))).map Prod.snd =
      (List.range l.length).map (fun i => min (n + i + 1) 6) := by
  induction l with
  | nil => intro n; rfl
  | cons x xs ih =>
    intro n
    rw [List.length_cons, List.range_succ_eq_map]
    have harith : ∀ i : Nat, n + 1 + i + 1 = n + Nat.succ i + 1 := by
      intro i
      omega
    simp [ih (n + 1), List.map_map, Function.comp, harith]

theorem buildHeadingMap_keys (sizes : List ℚ) (body : ℚ) :
    (buildHeadingMap sizes body).map Prod.fst =
      sortOrd (fun a b => decide (b ≤ a)) (sizes.filter (fun s => decide (s > body))) := by
  simp only [buildHeadingMap, List.enum]
  exact enumFrom_map_fst _ 0

theorem qge_total : ∀ a b : ℚ, (decide (b ≤ a) : Bool) = false → (decide (a ≤ b) : Bool) = true := by
  intro a b h
  simp at *
  exact le_of_lt h

theorem qge_trans : ∀ a b c : ℚ, (decide (b ≤ a) : Bool) = true → (decide (c ≤ b) : Bool) = true →
    (decide (c ≤ a) : Bool) = true := by
  intro a b c h1 h2
  simp at *
  exact le_trans h2 h1

theorem buildHeadingMap_mem_iff (sizes : List ℚ) (body s : ℚ) :
    (∃ lvl, (s, lvl) ∈ buildHeadingMap sizes body) ↔ (s ∈ sizes ∧ body < s) := by
  constructor
  · rintro ⟨lvl, hmem⟩
    have h1 : s ∈ (buildHeadingMap sizes body).map Prod.fst := List.mem_map_of_mem _ hmem
    rw [buildHeadingMap_keys] at h1
    have h2 := (sortOrd_perm _ _).mem_iff.mp h1
    rw [List.mem_filter] at h2
    exact ⟨h2.1, by simpa using h2.2⟩
  · rintro ⟨hmem, hgt⟩
    have hs : s ∈ (buildHeadingMap sizes body).map Prod.fst := by
      rw [buildHeadingMap_keys]
      exact (sortOrd_perm _ _).mem_iff.mpr (List.mem_filter.mpr ⟨hmem, by simpa using hgt⟩)
    obtain ⟨p, hp, hfst⟩ := List.mem_map.mp hs
    cases p with
    | mk a b =>
      cases hfst
      exact ⟨b, hp⟩

/-- Claim C4: the heading map keys are exactly the sizes strictly above the
body size; the body size is never a key; levels run 1, 2, … clamped at 6
along the descending-sorted keys; the scenario instance holds. -/
theorem claim_C4 :
    (∀ (sizes : List ℚ) (body s : ℚ),
      (∃ lvl, (s, lvl) ∈ buildHeadingMap sizes body) ↔ (s ∈ sizes ∧ body < s))
    ∧ (∀ (sizes : List ℚ) (body : ℚ) (lvl : Nat), (body, lvl) ∉ buildHeadingMap sizes body)
    ∧ (∀ (sizes : List ℚ) (body : ℚ),
      (buildHeadingMap sizes body).map Prod.snd =
        (List.range (sizes.filter (fun s => decide (s > body))).length).map
          (fun i => min (i + 1) 6))
    ∧ (∀ (sizes : List ℚ) (body : ℚ),
      (buildHeadingMap sizes body).Pairwise (fun a b => b.1 ≤ a.1))
    ∧ buildHeadingMap [10, 16, 24] 10 = [(24, 1), (16, 2)] := by
  refine ⟨buildHeadingMap_mem_iff, ?_, ?_, ?_, by decide⟩
  · intro sizes body lvl hmem
    have := (buildHeadingMap_mem_iff sizes body body).mp ⟨lvl, hmem⟩
    exact absurd this.2 (lt_irrefl body)
  · intro sizes body
    have h := enumFrom_map_snd (sortOrd (fun a b => decide (b ≤ a))
      (sizes.filter (fun s => decide (s > body)))) 0
    rw [(sortOrd_perm _ _).length_eq] at h
    simp only [buildHeadingMap, List.enum]
    simpa using h
  · intro sizes body
    have h1 := sortOrd_pairwise qge_total qge_trans (sizes.filter (fun s => decide (s > body)))
    have h2 : ((buildHeadingMap sizes body).map Prod.fst).Pairwise (fun a b => b ≤ a) := by
      rw [buildHeadingMap_keys]
      exact h1.imp (fun h => by simpa using h)
    exact List.pairwise_map.mp h2

/-- Witness for claim C4: the scenario histogram applied through the
membership characterization. -/
theorem claim_C4_witness :
    ((24 : ℚ) ∈ ([10, 16, 24] : List ℚ) ∧ (10 : ℚ) < 24) ∧
    (∃ lvl, ((24 : ℚ), lvl) ∈ buildHeadingMap [10, 16, 24] 10) :=
  ⟨⟨by decide, by decide⟩, (claim_C4.1 [10, 16, 24] 10 24).mpr ⟨by decide, by decide⟩⟩

/-! ### Claim C3 -/

theorem rangesSpec_map_start (total : Int) : ∀ l : List OItem,
    (rangesSpec l total).map Chapter.start = l.map (fun it => it.page - 1)
  | [] => rfl
  | [x] => by simp [rangesSpec]
  | x :: y :: rest => by
    have ih := rangesSpec_map_start total (y :: rest)
    simp only [rangesSpec, List.map_cons] at ih ⊢
    rw [ih]

theorem rangesSpec_union (total : Int) : ∀ (x : OItem) (rest : List OItem),
    (x :: rest).Pairwise (fun a b => a.page ≤ b.page) →
    (∀ it ∈ x :: rest, 1 ≤ it.page ∧ it.page ≤ total) →
    chaptersUnion (rangesSpec (x :: rest) total) = Set.Icc (x.page - 1) (total - 1)
  | x, [] => by
    intro _ _
    simp [rangesSpec, chaptersUnion]
  | x, y :: rest => by
    intro hp hb
    have hxy : x.page ≤ y.page := (List.pairwise_cons.mp hp).1 y (by simp)
    have hyt : y.page ≤ total := (hb y (by simp)).2
    have hy1 : 1 ≤ y.page := (hb y (by simp)).1
    have ih := rangesSpec_union total y rest (List.pairwise_cons.mp hp).2
      (fun it hit => hb it (List.mem_cons_of_mem x hit))
    show Set.Icc (x.page - 1) (max (y.page - 2) (x.page - 1)) ∪
        chaptersUnion (rangesSpec (y :: rest) total) = Set.Icc (x.page - 1) (total - 1)
    rw [ih]
    ext z
    simp only [Set.mem_union, Set.mem_Icc]
    omega

theorem rangesSpec_disjoint (total : Int) : ∀ l : List OItem,
    l.Pairwise (fun a b => a.page < b.page) →
    (rangesSpec l total).Pairwise (fun c c' => c.stop < c'.start)
  | [] => by
    intro _
    simp [rangesSpec]
  | [x] => by
    intro _
    simp [rangesSpec]
  | x :: y :: rest => by
    intro hp
    obtain ⟨hx, hrest⟩ := List.pairwise_cons.mp hp
    have ih := rangesSpec_disjoint total (y :: rest) hrest
    show List.Pairwise _ (⟨x.name, x.page - 1, max (y.page - 2) (x.page - 1), x.depth⟩ ::
      rangesSpec (y :: rest) total)
    refine List.pairwise_cons.mpr ⟨?_, ih⟩
    intro c hc
    have hcs : c.start ∈ (rangesSpec (y :: rest) total).map Chapter.start :=
      List.mem_map_of_mem _ hc
    rw [rangesSpec_map_start] at hcs
    obtain ⟨it, hit, heq⟩ := List.mem_map.mp hcs
    have hyi : y.page ≤ it.page := by
      rcases List.mem_cons.mp hit with rfl | hit'
      · exact le_refl _
      · exact le_of_lt ((List.pairwise_cons.mp hrest).1 it hit')
    have hxy : x.page < y.page := hx y (by simp)
    show max (y.page - 2) (x.page - 1) < c.start
    rw [← heq]
    omega

/-- Claim C3 (amended): the computed chapters are sorted by start page, and
when all pages lie in `[1, totalPages]` their interval union is exactly
`[firstSortedStart0, totalPages - 1]`; they are mutually non-overlapping
provided the item pages are pairwise distinct (a duplicated page yields a
degenerate single-page chapter overlapping its successor). -/
theorem claim_C3 (items : List OItem) (total : Int)
    (hb : ∀ it ∈ items, 1 ≤ it.page ∧ it.page ≤ total) :
    (computePageRanges items total).Pairwise (fun c c' => c.start ≤ c'.start)
    ∧ (∀ x rest, sortByPage items = x :: rest →
        chaptersUnion (computePageRanges items total) = Set.Icc (x.page - 1) (total - 1))
    ∧ ((items.map (fun it => it.page)).Nodup →
        (computePageRanges items total).Pairwise (fun c c' => c.stop < c'.start)) := by
  have heq : computePageRanges items total = rangesSpec (sortByPage items) total := by
    simp only [computePageRanges]
    exact range_map_rangeAt total (sortByPage items)
  have hsorted := sortByPage_pairwise items
  have hperm : List.Perm (sortByPage items) items := sortOrd_perm _ _
  have hbs : ∀ it ∈ sortByPage items, 1 ≤ it.page ∧ it.page ≤ total :=
    fun it hit => hb it (hperm.mem_iff.mp hit)
  refine ⟨?_, ?_, ?_⟩
  · rw [heq]
    have h1 : ((rangesSpec (sortByPage items) total).map Chapter.start).Pairwise (· ≤ ·) := by
      rw [rangesSpec_map_start]
      exact List.pairwise_map.mpr (hsorted.imp (fun h => by omega))
    exact List.pairwise_map.mp h1
  · intro x rest hxr
    rw [heq, hxr]
    exact rangesSpec_union total x rest (hxr ▸ hsorted) (hxr ▸ hbs)
  · intro hnd
    rw [heq]
    apply rangesSpec_disjoint
    have hnd2 : ((sortByPage items).map (fun it => it.page)).Nodup :=
      ((hperm.map _).nodup_iff).mpr hnd
    have hne : (sortByPage items).Pairwise (fun a b => a.page ≠ b.page) :=
      List.pairwise_map.mp hnd2
    exact (hsorted.and hne).imp (fun h => lt_of_le_of_ne h.1 h.2)

/-- Witness for claim C3 at a concrete two-item outline with distinct pages. -/
theorem claim_C3_witness :
    (∀ it ∈ ([⟨"A",1,1⟩, ⟨"B",3,1⟩] : List OItem), 1 ≤ it.page ∧ it.page ≤ 5) ∧
    ((computePageRanges [⟨"A",1,1⟩, ⟨"B",3,1⟩] 5).Pairwise (fun c c' => c.start ≤ c'.start)
      ∧ (∀ x rest, sortByPage [⟨"A",1,1⟩, ⟨"B",3,1⟩] = x :: rest →
          chaptersUnion (computePageRanges [⟨"A",1,1⟩, ⟨"B",3,1⟩] 5) =
            Set.Icc (x.page - 1) (5 - 1))
      ∧ ((([⟨"A",1,1⟩, ⟨"B",3,1⟩] : List OItem).map (fun it => it.page)).Nodup →
          (computePageRanges [⟨"A",1,1⟩, ⟨"B",3,1⟩] 5).Pairwise
            (fun c c' => c.stop < c'.start))) :=
  ⟨by decide, claim_C3 [⟨"A",1,1⟩, ⟨"B",3,1⟩] 5 (by decide)⟩

/-- Counterexample to claim C3 as stated: two outline items on the same
page produce chapters `("A", 2, 2)` and `("B", 2, 9)` whose page intervals
both contain page 2, so the chapters are not mutually non-overlapping. -/
theorem claim_C3_counterexample :
    computePageRanges [⟨"A",3,1⟩, ⟨"B",3,2⟩] 10 = [⟨"A",2,2,1⟩, ⟨"B",2,9,2⟩] ∧
    ¬ ((computePageRanges [⟨"A",3,1⟩, ⟨"B",3,2⟩] 10).Pairwise
        (fun c c' => Set.Icc c.start c.stop ∩ Set.Icc c'.start c'.stop = ∅)) := by
  refine ⟨by decide, fun h => ?_⟩
  rw [show computePageRanges [⟨"A",3,1⟩, ⟨"B",3,2⟩] 10 = [⟨"A",2,2,1⟩, ⟨"B",2,9,2⟩]
    from by decide] at h
  have h2 := (List.pairwise_cons.mp h).1 ⟨"B",2,9,2⟩ (by simp)
  have h3 : (2 : Int) ∈ Set.Icc ((⟨"A",2,2,1⟩ : Chapter).start) ((⟨"A",2,2,1⟩ : Chapter).stop) ∩
      Set.Icc ((⟨"B",2,9,2⟩ : Chapter).start) ((⟨"B",2,9,2⟩ : Chapter).stop) := by
    constructor <;> simp
  rw [h2] at h3
  exact h3

/-! ### Counter dictionary lemmas -/

theorem cntGet_cntSet_self : ∀ (cnt : List (String × Nat)) (k : String) (v : Nat),
    cntGet (cntSet cnt k v) k = v
  | [], k, v => by simp [cntGet, cntSet]
  | (k', v') :: rest, k, v => by
    by_cases h : k' = k
    · simp [cntGet, cntSet, h]
    · simp [cntGet, cntSet, h, cntGet_cntSet_self rest k v]

theorem cntGet_cntSet_ne : ∀ (cnt : List (String × Nat)) (k k' : String) (v : Nat),
    k' ≠ k → cntGet (cntSet cnt k v) k' = cntGet cnt k'
  | [], k, k', v => by
    intro h
    simp [cntGet, cntSet]
    intro hk
    exact absurd hk.symm h
  | (k0, v0) :: rest, k, k', v => by
    intro h
    by_cases h0 : k0 = k
    · subst h0
      simp [cntSet, cntGet, h, Ne.symm h]
    · by_cases h1 : k0 = k'
      · simp [cntSet, cntGet, h0, h1, h]
      · simp [cntSet, cntGet, h0, h1, h, cntGet_cntSet_ne rest k k' v h]

/-! ### Claim C5 -/

theorem batchAux_flat (doc : Doc) (sep : String) (d s e : Int) (names : List String) :
    ∀ (ctx : List (Int × String)) (cnt : List (String × Nat)),
      ctx.filter (fun kv => decide (kv.1 < d)) = [] →
      (batchAux doc sep (names.map (fun n => ⟨n, s, e, d⟩)) ctx cnt).map Prod.fst =
        (List.range names.length).map (fun i =>
          zeroPad2 (cntGet cnt "" + i + 1) ++ "_" ++ sanitizeFilename (names.getD i "") ++ ".md") := by
  induction names with
  | nil =>
    intro ctx cnt _
    simp [batchAux]
  | cons n0 rest ih =>
    intro ctx cnt h
    simp only [List.map_cons, batchAux]
    rw [h]
    have hpk : parentKeyOf ([] : List (Int × String)) d = "" := rfl
    rw [hpk]
    have hctx2 : (dictSetIS [] d (sanitizeFilename n0)).filter
        (fun kv => decide (kv.1 < d)) = [] := by
      simp [dictSetIS, lt_irrefl]
    have ihs := ih (dictSetIS [] d (sanitizeFilename n0))
      (cntSet cnt "" (cntGet cnt "" + 1)) hctx2
    rw [List.length_cons, List.range_succ_eq_map, List.map_cons, List.map_map]
    simp only [if_neg (by simp : ¬ ("" : String) ≠ "")]
    refine congrArg₂ List.cons ?_ ?_
    · simp
    · rw [ihs, cntGet_cntSet_self]
      have hfun : (fun i =>
            zeroPad2 (cntGet cnt "" + 1 + i + 1) ++ "_" ++
              sanitizeFilename (rest.getD i "") ++ ".md")
          = ((fun i => zeroPad2 (cntGet cnt "" + i + 1) ++ "_" ++
              sanitizeFilename ((n0 :: rest).getD i "") ++ ".md") ∘ Nat.succ) := by
        funext i
        simp only [Function.comp, List.getD_cons_succ]
        rw [show cntGet cnt "" + 1 + i + 1 = cntGet cnt "" + Nat.succ i + 1 from by omega]
      rw [hfun]

/-- Claim C5: the path builder threads its context chapter by chapter —
entries with depth ≥ the current chapter's depth never influence the
result; a flat list of same-depth chapters yields sibling files with
1-based zero-padded sequence numbers in order; strictly increasing depths
1, 2, 3 yield nested paths. -/
theorem claim_C5 :
    (∀ (doc : Doc) (sep : String) (c : Chapter) (rest : List Chapter)
        (ctx : List (Int × String)) (cnt : List (String × Nat)),
      batchAux doc sep (c :: rest) ctx cnt =
        batchAux doc sep (c :: rest) (ctx.filter (fun kv => decide (kv.1 < c.depth))) cnt)
    ∧ (∀ (doc : Doc) (sep : String) (d s e : Int) (names : List String),
      (batchConvertToZip doc sep (names.map (fun n => ⟨n, s, e, d⟩))).map Prod.fst =
        (List.range names.length).map (fun i =>
          zeroPad2 (i + 1) ++ "_" ++ sanitizeFilename (names.getD i "") ++ ".md"))
    ∧ (batchConvertToZip [] "s" [⟨"a",0,0,1⟩, ⟨"b",0,0,2⟩, ⟨"c",0,0,3⟩]).map Prod.fst =
        ["01_a.md", "a/01_b.md", "a/b/01_c.md"] := by
  refine ⟨?_, ?_, by decide⟩
  · intro doc sep c rest ctx cnt
    simp only [batchAux, List.filter_filter, Bool.and_self]
  · intro doc sep d s e names
    have h := batchAux_flat doc sep d s e names [] [] rfl
    simpa [batchConvertToZip, cntGet] using h

/-! ### Claim C7 -/

theorem exceptIsError_map {ε α β : Type _} (f : α → β) (x : Except ε α) :
    exceptIsError (x.map f) = exceptIsError x := by
  cases x <;> rfl

theorem buildXmlItems_error_iff : ∀ (l : List (String × String × Int)) (off total : Int),
    exceptIsError (buildXmlItems l off total) = true ↔ ∃ e ∈ l, entryBad off total e
  | [], off, total => by simp [buildXmlItems, exceptIsError]
  | (name, ps, dep) :: rest, off, total => by
    have ih := buildXmlItems_error_iff rest off total
    simp only [buildXmlItems]
    cases hp : pyInt ps with
    | none =>
      constructor
      · intro _
        exact ⟨(name, ps, dep), List.mem_cons_self _ _, Or.inl hp⟩
      · intro _
        rfl
    | some p =>
      dsimp only
      by_cases hr : p + off < 1 ∨ p + off > total
      · rw [if_pos hr]
        constructor
        · intro _
          exact ⟨(name, ps, dep), List.mem_cons_self _ _, Or.inr ⟨p, hp, hr⟩⟩
        · intro _
          rfl
      · rw [if_neg hr, exceptIsError_map, ih]
        constructor
        · rintro ⟨e, he, hb⟩
          exact ⟨e, List.mem_cons_of_mem _ he, hb⟩
        · rintro ⟨e, he, hb⟩
          rcases List.mem_cons.mp he with rfl | he'
          · rcases hb with hnone | ⟨p', hp', hout⟩
            · rw [hp] at hnone
              exact absurd hnone (by simp)
            · rw [hp] at hp'
              cases hp'
              exact absurd hout hr
          · exact ⟨e, he', hb⟩

theorem parseBookmarks_error_iff (root : List XmlNode) (total off : Int) :
    exceptIsError (parseBookmarks root total off) = true ↔
      (walkXmlItems root 1 = [] ∨ ∃ e ∈ walkXmlItems root 1, entryBad off total e) := by
  simp only [parseBookmarks]
  by_cases hw : walkXmlItems root 1 = []
  · rw [if_pos hw]
    simp [exceptIsError, hw]
  · rw [if_neg hw, exceptIsError_map, buildXmlItems_error_iff]
    simp [hw]

theorem collectTocItems_error_iff : ∀ (l : List (Int × String × Int)) (off total : Int),
    exceptIsError (collectTocItems l off total) = true ↔
      ∃ e ∈ tocUsable l, (e.2.2 + off < 1 ∨ e.2.2 + off > total)
  | [], _, _ => by simp [collectTocItems, exceptIsError, tocUsable]
  | (lvl, title, p1) :: rest, off, total => by
    have ih := collectTocItems_error_iff rest off total
    simp only [collectTocItems]
    by_cases hn : pyStrip title = ""
    · rw [if_pos hn, ih]
      have hu : tocUsable ((lvl, title, p1) :: rest) = tocUsable rest := by
        simp [tocUsable, List.filter_cons, hn]
      rw [hu]
    · rw [if_neg hn]
      have hu : tocUsable ((lvl, title, p1) :: rest) = (lvl, title, p1) :: tocUsable rest := by
        simp [tocUsable, List.filter_cons, hn]
      by_cases hr : p1 + off < 1 ∨ p1 + off > total
      · rw [if_pos hr, hu]
        constructor
        · intro _
          exact ⟨(lvl, title, p1), List.mem_cons_self _ _, hr⟩
        · intro _
          rfl
      · rw [if_neg hr, exceptIsError_map, ih, hu]
        constructor
        · rintro ⟨e, he, hb⟩
          exact ⟨e, List.mem_cons_of_mem _ he, hb⟩
        · rintro ⟨e, he, hb⟩
          rcases List.mem_cons.mp he with rfl | he'
          · exact absurd hb hr
          · exact ⟨e, he', hb⟩

theorem collectTocItems_ok_empty : ∀ (l : List (Int × String × Int)) (off total : Int)
    (items : List OItem), collectTocItems l off total = .ok items →
    (items = [] ↔ tocUsable l = [])
  | [], off, total, items => by
    intro h
    simp only [collectTocItems] at h
    cases h
    simp [tocUsable]
  | (lvl, title, p1) :: rest, off, total, items => by
    intro h
    simp only [collectTocItems] at h
    by_cases hn : pyStrip title = ""
    · rw [if_pos hn] at h
      rw [collectTocItems_ok_empty rest off total items h]
      simp [tocUsable, List.filter_cons, hn]
    · rw [if_neg hn] at h
      by_cases hr : p1 + off < 1 ∨ p1 + off > total
      · rw [if_pos hr] at h
        exact absurd h (by simp)
      · rw [if_neg hr] at h
        cases hcollect : collectTocItems rest off total with
        | error e2 =>
          rw [hcollect] at h
          exact absurd h (by simp [Except.map])
        | ok its =>
          rw [hcollect] at h
          simp only [Except.map, Except.ok.injEq] at h
          rw [← h]
          simp [tocUsable, List.filter_cons, hn]

theorem parseToc_error_iff (toc : List (Int × String × Int)) (total off : Int) :
    exceptIsError (parseBookmarksFromToc toc total off) = true ↔
      (toc = [] ∨ tocUsable toc = [] ∨
        ∃ e ∈ tocUsable toc, (e.2.2 + off < 1 ∨ e.2.2 + off > total)) := by
  simp only [parseBookmarksFromToc]
  by_cases ht : toc = []
  · rw [if_pos ht]
    simp [exceptIsError, ht]
  · rw [if_neg ht]
    cases hc : collectTocItems toc off total with
    | error e =>
      constructor
      · intro _
        right
        right
        exact (collectTocItems_error_iff toc off total).mp (by rw [hc]; rfl)
      · intro _
        rfl
    | ok items =>
      dsimp only
      by_cases hi : items = []
      · rw [if_pos hi]
        constructor
        · intro _
          right
          left
          exact (collectTocItems_ok_empty toc off total items hc).mp hi
        · intro _
          rfl
      · rw [if_neg hi]
        constructor
        · intro hfalse
          exact absurd hfalse (by simp [exceptIsError])
        · intro hcase
          rcases hcase with h | h | ⟨e, he, hb⟩
          · exact absurd h ht
          · exact absurd ((collectTocItems_ok_empty toc off total items hc).mpr h) hi
          · have := (collectTocItems_error_iff toc off total).mpr ⟨e, he, hb⟩
            rw [hc] at this
            exact absurd this (by simp [exceptIsError])

theorem renderBookmarkError_contains_name (err : BookmarkError) (n : String)
    (h : bookmarkErrorName err = some n) :
    ∃ pre post, renderBookmarkError err = pre ++ n ++ post := by
  cases err with
  | badPage ps nm =>
    simp only [bookmarkErrorName, Option.some.injEq] at h
    subst h
    exact ⟨"无效的页码: " ++ ps ++ "（章节: ", "）", rfl⟩
  | outOfRange p total nm =>
    simp only [bookmarkErrorName, Option.some.injEq] at h
    subst h
    exact ⟨"页码 " ++ intDecimal p ++ " 越界，PDF 共 " ++ intDecimal total ++ " 页（章节: ",
      "）", rfl⟩
  | noItems => simp [bookmarkErrorName] at h
  | noToc => simp [bookmarkErrorName] at h
  | noValidItems => simp [bookmarkErrorName] at h

theorem buildXmlItems_error_name : ∀ (l : List (String × String × Int)) (off total : Int)
    (err : BookmarkError), buildXmlItems l off total = .error err →
    ∀ n, bookmarkErrorName err = some n → ∃ e ∈ l, e.1 = n
  | [], _, _, err => by
    intro h
    simp [buildXmlItems] at h
  | (name, ps, dep) :: rest, off, total, err => by
    intro h n hn
    simp only [buildXmlItems] at h
    cases hp : pyInt ps with
    | none =>
      rw [hp] at h
      dsimp only at h
      injection h with h'
      subst h'
      simp only [bookmarkErrorName, Option.some.injEq] at hn
      exact ⟨(name, ps, dep), List.mem_cons_self _ _, hn⟩
    | some p =>
      rw [hp] at h
      dsimp only at h
      by_cases hr : p + off < 1 ∨ p + off > total
      · rw [if_pos hr] at h
        injection h with h'
        subst h'
        simp only [bookmarkErrorName, Option.some.injEq] at hn
        exact ⟨(name, ps, dep), List.mem_cons_self _ _, hn⟩
      · rw [if_neg hr] at h
        cases hb : buildXmlItems rest off total with
        | error e2 =>
          rw [hb] at h
          simp only [Except.map, Except.error.injEq] at h
          subst h
          obtain ⟨e, he, hna⟩ := buildXmlItems_error_name rest off total e2 hb n hn
          exact ⟨e, List.mem_cons_of_mem _ he, hna⟩
        | ok its =>
          rw [hb] at h
          simp [Except.map] at h

theorem parseBookmarks_error_name (root : List XmlNode) (total off : Int)
    (err : BookmarkError) (h : parseBookmarks root total off = .error err)
    (n : String) (hn : bookmarkErrorName err = some n) :
    ∃ e ∈ walkXmlItems root 1, e.1 = n := by
  simp only [parseBookmarks] at h
  by_cases hw : walkXmlItems root 1 = []
  · rw [if_pos hw] at h
    injection h with h'
    subst h'
    simp [bookmarkErrorName] at hn
  · rw [if_neg hw] at h
    cases hb : buildXmlItems (walkXmlItems root 1) off total with
    | error e2 =>
      rw [hb] at h
      simp only [Except.map, Except.error.injEq] at h
      subst h
      exact buildXmlItems_error_name _ _ _ _ hb n hn
    | ok its =>
      rw [hb] at h
      simp [Except.map] at h

theorem collectTocItems_error_name : ∀ (l : List (Int × String × Int)) (off total : Int)
    (err : BookmarkError), collectTocItems l off total = .error err →
    ∀ n, bookmarkErrorName err = some n → ∃ e ∈ tocUsable l, pyStrip e.2.1 = n
  | [], _, _, err => by
    intro h
    simp [collectTocItems] at h
  | (lvl, title, p1) :: rest, off, total, err => by
    intro h n hn
    simp only [collectTocItems] at h
    by_cases hb : pyStrip title = ""
    · rw [if_pos hb] at h
      obtain ⟨e, he, hna⟩ := collectTocItems_error_name rest off total err h n hn
      refine ⟨e, ?_, hna⟩
      simpa [tocUsable, List.filter_cons, hb] using he
    · rw [if_neg hb] at h
      by_cases hr : p1 + off < 1 ∨ p1 + off > total
      · rw [if_pos hr] at h
        injection h with h'
        subst h'
        simp only [bookmarkErrorName, Option.some.injEq] at hn
        refine ⟨(lvl, title, p1), ?_, hn⟩
        simp [tocUsable, List.filter_cons, hb]
      · rw [if_neg hr] at h
        cases hc : collectTocItems rest off total with
        | error e2 =>
          rw [hc] at h
          simp only [Except.map, Except.error.injEq] at h
          subst h
          obtain ⟨e, he, hna⟩ := collectTocItems_error_name rest off total e2 hc n hn
          refine ⟨e, ?_, hna⟩
          simp only [tocUsable, List.filter_cons] at he ⊢
          split
          · exact List.mem_cons_of_mem _ (by simpa [tocUsable] using he)
          · simpa [tocUsable] using he
        | ok its =>
          rw [hc] at h
          simp [Except.map] at h

theorem parseToc_error_name (toc : List (Int × String × Int)) (total off : Int)
    (err : BookmarkError) (h : parseBookmarksFromToc toc total off = .error err)
    (n : String) (hn : bookmarkErrorName err = some n) :
    ∃ e ∈ tocUsable toc, pyStrip e.2.1 = n := by
  simp only [parseBookmarksFromToc] at h
  by_cases ht : toc = []
  · rw [if_pos ht] at h
    injection h with h'
    subst h'
    simp [bookmarkErrorName] at hn
  · rw [if_neg ht] at h
    cases hc : collectTocItems toc off total with
    | error e2 =>
      rw [hc] at h
      injection h with h'
      subst h'
      exact collectTocItems_error_name _ _ _ _ hc n hn
    | ok items =>
      rw [hc] at h
      dsimp only at h
      by_cases hi : items = []
      · rw [if_pos hi] at h
        injection h with h'
        subst h'
        simp [bookmarkErrorName] at hn
      · rw [if_neg hi] at h
        exact absurd h (by simp)

/-- Claim C7: outline normalization fails exactly when the raw source
yields zero usable items, a page value is non-numeric (XML source), or an
offset-adjusted page of a usable item lies outside `[1, totalPages]`; every
item-caused failure message embeds the offending item's name, and that name
comes from the walked source. -/
theorem claim_C7 :
    (∀ (root : List XmlNode) (total off : Int),
      exceptIsError (parseBookmarks root total off) = true ↔
        (walkXmlItems root 1 = [] ∨ ∃ e ∈ walkXmlItems root 1, entryBad off total e))
    ∧ (∀ (toc : List (Int × String × Int)) (total off : Int),
      exceptIsError (parseBookmarksFromToc toc total off) = true ↔
        (toc = [] ∨ tocUsable toc = [] ∨
          ∃ e ∈ tocUsable toc, (e.2.2 + off < 1 ∨ e.2.2 + off > total)))
    ∧ (∀ (err : BookmarkError) (n : String), bookmarkErrorName err = some n →
        ∃ pre post, renderBookmarkError err = pre ++ n ++ post)
    ∧ (∀ (root : List XmlNode) (total off : Int) (err : BookmarkError),
        parseBookmarks root total off = .error err →
        ∀ n, bookmarkErrorName err = some n → ∃ e ∈ walkXmlItems root 1, e.1 = n)
    ∧ (∀ (toc : List (Int × String × Int)) (total off : Int) (err : BookmarkError),
        parseBookmarksFromToc toc total off = .error err →
        ∀ n, bookmarkErrorName err = some n → ∃ e ∈ tocUsable toc, pyStrip e.2.1 = n) :=
  ⟨parseBookmarks_error_iff, parseToc_error_iff, renderBookmarkError_contains_name,
    parseBookmarks_error_name, parseToc_error_name⟩

/-- Witness for claim C7: a concrete non-numeric page value fails and its
message embeds the chapter name. -/
theorem claim_C7_witness :
    parseBookmarks [XmlNode.mk "A" "xx" []] 10 1 = .error (.badPage "xx" "A") ∧
    (∃ pre post, renderBookmarkError (.badPage "xx" "A") = pre ++ "A" ++ post) := by
  constructor
  · simp [parseBookmarks, walkXmlItems, buildXmlItems, pyInt, pyStrip, pyIntDigitsOk,
      Except.map]
  · exact claim_C7.2.2.1 (.badPage "xx" "A") "A" rfl

/-! ### Claim C9: decimal rendering machinery -/

theorem natDigitCharsAux_irrel (f1 : Nat) : ∀ (n f2 : Nat), n < f1 → n < f2 →
    natDigitCharsAux f1 n = natDigitCharsAux f2 n := by
  induction f1 with
  | zero =>
    intro n f2 h1 _
    omega
  | succ f ih =>
    intro n f2 h1 h2
    cases f2 with
    | zero => omega
    | succ g =>
      simp only [natDigitCharsAux]
      by_cases h10 : n < 10
      · rw [if_pos h10, if_pos h10]
      · rw [if_neg h10, if_neg h10]
        have hd : n / 10 < n := Nat.div_lt_self (by omega) (by omega)
        rw [ih (n / 10) g (by omega) (by omega)]

theorem natDigitChars_unfold (n : Nat) : natDigitChars n =
    if n < 10 then [Nat.digitChar n]
    else natDigitChars (n / 10) ++ [Nat.digitChar (n % 10)] := by
  by_cases h10 : n < 10
  · rw [if_pos h10]
    simp only [natDigitChars, natDigitCharsAux, if_pos h10]
  · rw [if_neg h10]
    show natDigitCharsAux (n + 1) n = _
    rw [natDigitCharsAux, if_neg h10]
    have hd : n / 10 < n := Nat.div_lt_self (by omega) (by omega)
    congr 1
    exact natDigitCharsAux_irrel n (n / 10) (n / 10 + 1) (by omega) (by omega)

theorem digitChar_isDigit (d : Nat) (h : d < 10) : (Nat.digitChar d).isDigit = true := by
  interval_cases d <;> decide

theorem digitVal_digitChar (d : Nat) (h : d < 10) : digitVal (Nat.digitChar d) = d := by
  interval_cases d <;> decide

theorem natDigitChars_digits (n : Nat) : ∀ c ∈ natDigitChars n, c.isDigit = true := by
  induction n using Nat.strong_induction_on with
  | _ n ih =>
    rw [natDigitChars_unfold]
    by_cases h10 : n < 10
    · rw [if_pos h10]
      intro c hc
      simp at hc
      subst hc
      exact digitChar_isDigit n h10
    · rw [if_neg h10]
      intro c hc
      rcases List.mem_append.mp hc with hc | hc
      · exact ih (n / 10) (Nat.div_lt_self (by omega) (by omega)) c hc
      · simp at hc
        subst hc
        exact digitChar_isDigit (n % 10) (Nat.mod_lt _ (by omega))

theorem digitsVal_append_single (l : List Char) (c : Char) :
    digitsVal (l ++ [c]) = 10 * digitsVal l + digitVal c := by
  simp [digitsVal, List.foldl_append]

theorem digitsVal_natDigitChars (n : Nat) : digitsVal (natDigitChars n) = n := by
  induction n using Nat.strong_induction_on with
  | _ n ih =>
    rw [natDigitChars_unfold]
    by_cases h10 : n < 10
    · rw [if_pos h10]
      simp [digitsVal, digitVal_digitChar n h10]
    · rw [if_neg h10, digitsVal_append_single,
        ih (n / 10) (Nat.div_lt_self (by omega) (by omega)),
        digitVal_digitChar (n % 10) (Nat.mod_lt _ (by omega))]
      omega

theorem natDigitChars_inj {m n : Nat} (h : natDigitChars m = natDigitChars n) : m = n := by
  have h2 := congrArg digitsVal h
  rwa [digitsVal_natDigitChars, digitsVal_natDigitChars] at h2

theorem natDigitChars_ne_nil (n : Nat) : natDigitChars n ≠ [] := by
  rw [natDigitChars_unfold]
  by_cases h10 : n < 10
  · simp [h10]
  · simp [h10]

theorem natDigitChars_head_pos (n : Nat) : 1 ≤ n → ∀ c cs, natDigitChars n = c :: cs →
    1 ≤ digitVal c := by
  induction n using Nat.strong_induction_on with
  | _ n ih =>
    intro h1 c cs hc
    rw [natDigitChars_unfold] at hc
    by_cases h10 : n < 10
    · rw [if_pos h10] at hc
      injection hc with hc1 _
      subst hc1
      rw [digitVal_digitChar n h10]
      omega
    · rw [if_neg h10] at hc
      cases hh : natDigitChars (n / 10) with
      | nil => exact absurd hh (natDigitChars_ne_nil _)
      | cons c' cs' =>
        rw [hh, List.cons_append] at hc
        injection hc with hc1 _
        subst hc1
        exact ih (n / 10) (Nat.div_lt_self (by omega) (by omega)) (by omega) c' cs' hh

theorem zeroPad2_data (n : Nat) : (zeroPad2 n).data =
    if n < 10 then '0' :: natDigitChars n else natDigitChars n := by
  unfold zeroPad2
  by_cases h : n < 10
  · rw [if_pos h, if_pos h, String.data_append]
    rfl
  · rw [if_neg h, if_neg h]
    rfl

theorem zeroPad2_digits (n : Nat) : ∀ c ∈ (zeroPad2 n).data, c.isDigit = true := by
  rw [zeroPad2_data]
  by_cases h : n < 10
  · rw [if_pos h]
    intro c hc
    rcases List.mem_cons.mp hc with rfl | hc
    · decide
    · exact natDigitChars_digits n c hc
  · rw [if_neg h]
    exact natDigitChars_digits n

theorem pad_mixed (m n : Nat) (hn : ¬ n < 10) : '0' :: natDigitChars m ≠ natDigitChars n := by
  intro hd
  cases hh : natDigitChars n with
  | nil => exact natDigitChars_ne_nil n hh
  | cons c cs =>
    rw [hh] at hd
    injection hd with h1 _
    have hpos := natDigitChars_head_pos n (by omega) c cs hh
    rw [← h1] at hpos
    have h0 : digitVal '0' = 0 := rfl
    rw [h0] at hpos
    omega

theorem zeroPad2_data_inj {m n : Nat} (hd : (zeroPad2 m).data = (zeroPad2 n).data) : m = n := by
  rw [zeroPad2_data, zeroPad2_data] at hd
  by_cases hm : m < 10 <;> by_cases hn : n < 10
  · rw [if_pos hm, if_pos hn] at hd
    injection hd with _ hd2
    exact natDigitChars_inj hd2
  · rw [if_pos hm, if_neg hn] at hd
    exact absurd hd (pad_mixed m n hn)
  · rw [if_neg hm, if_pos hn] at hd
    exact absurd hd.symm (pad_mixed n m hm)
  · rw [if_neg hm, if_neg hn] at hd
    exact natDigitChars_inj hd

/-! ### Claim C9: separator splitting and sanitized names -/

theorem append_sep_inj {c : Char} : ∀ {a : List Char} {x : List Char} {b y : List Char},
    c ∉ a → c ∉ b → a ++ c :: x = b ++ c :: y → a = b ∧ x = y := by
  intro a
  induction a with
  | nil =>
    intro x b y _ hb h
    cases b with
    | nil =>
      simp only [List.nil_append] at h
      injection h with _ h2
      exact ⟨rfl, h2⟩
    | cons d b' =>
      simp only [List.nil_append, List.cons_append] at h
      injection h with h1 _
      subst h1
      exact absurd (List.mem_cons_self _ _) hb
  | cons e a' ih =>
    intro x b y ha hb h
    cases b with
    | nil =>
      simp only [List.cons_append, List.nil_append] at h
      injection h with h1 _
      subst h1
      exact absurd (List.mem_cons_self _ _) ha
    | cons d b' =>
      simp only [List.cons_append] at h
      injection h with h1 h2
      subst h1
      have ha' : c ∉ a' := fun hm => ha (List.mem_cons_of_mem _ hm)
      have hb' : c ∉ b' := fun hm => hb (List.mem_cons_of_mem _ hm)
      obtain ⟨heq, hxy⟩ := ih ha' hb' h2
      exact ⟨by rw [heq], hxy⟩

theorem mem_collapseWsAux : ∀ (l : List Char) (flag : Bool) (c : Char),
    c ∈ collapseWsAux l flag → c ∈ l ∨ c = '_'
  | [], flag, c => by simp [collapseWsAux]
  | a :: rest, flag, c => by
    intro hc
    simp only [collapseWsAux] at hc
    by_cases hw : a.isWhitespace = true
    · rw [if_pos hw] at hc
      by_cases hf : flag = true
      · rw [if_pos hf] at hc
        rcases mem_collapseWsAux rest true c hc with h | h
        · exact Or.inl (List.mem_cons_of_mem _ h)
        · exact Or.inr h
      · rw [if_neg hf] at hc
        rcases List.mem_cons.mp hc with rfl | hc'
        · exact Or.inr rfl
        · rcases mem_collapseWsAux rest true c hc' with h | h
          · exact Or.inl (List.mem_cons_of_mem _ h)
          · exact Or.inr h
    · rw [if_neg hw] at hc
      rcases List.mem_cons.mp hc with rfl | hc'
      · exact Or.inl (List.mem_cons_self _ _)
      · rcases mem_collapseWsAux rest false c hc' with h | h
        · exact Or.inl (List.mem_cons_of_mem _ h)
        · exact Or.inr h

theorem pyStrip_data_subset (s : String) : ∀ c ∈ (pyStrip s).data, c ∈ s.data := by
  intro c hc
  have hc1 : c ∈ ((s.data.dropWhile Char.isWhitespace).reverse.dropWhile
      Char.isWhitespace).reverse := hc
  rw [List.mem_reverse] at hc1
  have hc2 := (List.dropWhile_sublist _).subset hc1
  rw [List.mem_reverse] at hc2
  exact (List.dropWhile_sublist _).subset hc2

theorem sanitize_no_slash (name : String) : '/' ∉ (sanitizeFilename name).data := by
  simp only [sanitizeFilename]
  split
  · decide
  · intro hc
    have hc3 : '/' ∈ collapseWsAux (pyStrip (String.mk
        (name.data.filter (fun c => !illegalChars.contains c)))).data false :=
      (List.take_sublist _ _).subset hc
    rcases mem_collapseWsAux _ _ _ hc3 with hmem | heq
    · have h2 := pyStrip_data_subset _ _ hmem
      have h3 := List.of_mem_filter h2
      simp [illegalChars] at h3
    · exact absurd heq (by decide)

/-! ### Claim C9: path injectivity -/

theorem fileNameOf_data (s : Nat) (n : String) : (fileNameOf s n).data =
    (zeroPad2 s).data ++ '_' :: ((sanitizeFilename n).data ++ ['.', 'm', 'd']) := by
  simp only [fileNameOf, String.data_append, List.append_assoc]
  rfl

theorem fileNameOf_no_slash (s : Nat) (n : String) : '/' ∉ (fileNameOf s n).data := by
  rw [fileNameOf_data]
  intro hc
  rcases List.mem_append.mp hc with hc | hc
  · exact absurd (zeroPad2_digits s _ hc) (by decide)
  · rcases List.mem_cons.mp hc with heq | hc
    · exact absurd heq (by decide)
    · rcases List.mem_append.mp hc with hc | hc
      · exact sanitize_no_slash n hc
      · exact absurd hc (by decide)

theorem fileNameOf_inj {s1 s2 : Nat} {n1 n2 : String}
    (h : fileNameOf s1 n1 = fileNameOf s2 n2) : s1 = s2 := by
  have hd := congrArg String.data h
  rw [fileNameOf_data, fileNameOf_data] at hd
  have h1 : '_' ∉ (zeroPad2 s1).data := fun hc =>
    absurd (zeroPad2_digits s1 _ hc) (by decide)
  have h2 : '_' ∉ (zeroPad2 s2).data := fun hc =>
    absurd (zeroPad2_digits s2 _ hc) (by decide)
  obtain ⟨hpad, _⟩ := append_sep_inj h1 h2 hd
  exact zeroPad2_data_inj hpad

theorem pathOf_contains_slash (pk : String) (s : Nat) (n : String) (hpk : pk ≠ "") :
    '/' ∈ (pathOf pk s n).data := by
  simp only [pathOf, if_pos hpk, String.data_append]
  simp

theorem pathOf_inj {pk1 pk2 : String} {s1 s2 : Nat} {n1 n2 : String}
    (h : pathOf pk1 s1 n1 = pathOf pk2 s2 n2) : pk1 = pk2 ∧ s1 = s2 := by
  by_cases h1 : pk1 = "" <;> by_cases h2 : pk2 = ""
  · subst h1
    subst h2
    simp only [pathOf, if_neg (fun hh : ("" : String) ≠ "" => hh rfl)] at h
    exact ⟨rfl, fileNameOf_inj h⟩
  · exfalso
    subst h1
    have hs := pathOf_contains_slash pk2 s2 n2 h2
    rw [← h] at hs
    simp only [pathOf, if_neg (fun hh : ("" : String) ≠ "" => hh rfl)] at hs
    exact fileNameOf_no_slash s1 n1 hs
  · exfalso
    subst h2
    have hs := pathOf_contains_slash pk1 s1 n1 h1
    rw [h] at hs
    simp only [pathOf, if_neg (fun hh : ("" : String) ≠ "" => hh rfl)] at hs
    exact fileNameOf_no_slash s2 n2 hs
  · simp only [pathOf, if_pos h1, if_pos h2] at h
    have hd := congrArg String.data h
    simp only [String.data_append, List.append_assoc] at hd
    have hd2 : pk1.data ++ '/' :: (fileNameOf s1 n1).data =
        pk2.data ++ '/' :: (fileNameOf s2 n2).data := hd
    have hrev := congrArg List.reverse hd2
    simp only [List.reverse_append, List.reverse_cons, List.append_assoc] at hrev
    have hrev2 : (fileNameOf s1 n1).data.reverse ++ '/' :: pk1.data.reverse =
        (fileNameOf s2 n2).data.reverse ++ '/' :: pk2.data.reverse := hrev
    have hf1 : '/' ∉ (fileNameOf s1 n1).data.reverse := by
      intro hc
      rw [List.mem_reverse] at hc
      exact fileNameOf_no_slash s1 n1 hc
    have hf2 : '/' ∉ (fileNameOf s2 n2).data.reverse := by
      intro hc
      rw [List.mem_reverse] at hc
      exact fileNameOf_no_slash s2 n2 hc
    obtain ⟨hfeq, hpkeq⟩ := append_sep_inj hf1 hf2 hrev2
    refine ⟨String.ext (List.reverse_injective hpkeq), ?_⟩
    exact fileNameOf_inj (String.ext (List.reverse_injective hfeq))

/-! ### Claim C9: distinct archive paths -/

theorem batchAux_paths : ∀ (chs : List Chapter) (doc : Doc) (sep : String)
    (ctx : List (Int × String)) (cnt : List (String × Nat)),
    (∀ en ∈ batchAux doc sep chs ctx cnt,
      ∃ pk s n, en.1 = pathOf pk s n ∧ cntGet cnt pk < s)
    ∧ (batchAux doc sep chs ctx cnt).Pairwise (fun a b => a.1 ≠ b.1)
  | [], doc, sep, ctx, cnt => by simp [batchAux]
  | c :: rest, doc, sep, ctx, cnt => by
    set PK := parentKeyOf (ctx.filter (fun kv => decide (kv.1 < c.depth))) c.depth with hPK
    obtain ⟨ihA, ihB⟩ := batchAux_paths rest doc sep
      (dictSetIS (ctx.filter (fun kv => decide (kv.1 < c.depth))) c.depth
        (sanitizeFilename c.name))
      (cntSet cnt PK (cntGet cnt PK + 1))
    constructor
    · intro en hen
      rcases List.mem_cons.mp hen with rfl | hen'
      · exact ⟨PK, cntGet cnt PK + 1, c.name, rfl, by omega⟩
      · obtain ⟨pk, s, n, hpath, hgt⟩ := ihA en hen'
        refine ⟨pk, s, n, hpath, ?_⟩
        by_cases hpk : pk = PK
        · subst hpk
          rw [cntGet_cntSet_self] at hgt
          omega
        · rw [cntGet_cntSet_ne _ _ _ _ hpk] at hgt
          exact hgt
    · refine List.pairwise_cons.mpr ⟨?_, ihB⟩
      intro en hen heq
      obtain ⟨pk, s, n, hpath, hgt⟩ := ihA en hen
      rw [hpath] at heq
      have heq2 : pathOf PK (cntGet cnt PK + 1) c.name = pathOf pk s n := heq
      obtain ⟨hpk, hs⟩ := pathOf_inj heq2
      rw [← hpk] at hgt
      rw [cntGet_cntSet_self] at hgt
      omega

/-- Claim C9: within one batch job the archive paths are pairwise distinct,
and sanitized names never contain a path separator. -/
theorem claim_C9 (doc : Doc) (sep : String) (chapters : List Chapter) :
    ((batchConvertToZip doc sep chapters).map Prod.fst).Pairwise (fun a b => a ≠ b)
    ∧ ∀ name, '/' ∉ (sanitizeFilename name).data := by
  constructor
  · exact List.pairwise_map.mpr (batchAux_paths chapters doc sep [] []).2
  · exact sanitize_no_slash

/-- Witness for claim C9 at a concrete two-chapter batch. -/
theorem claim_C9_witness :
    ((batchConvertToZip [] "s" [⟨"a",0,0,1⟩, ⟨"a",0,0,1⟩]).map Prod.fst).Pairwise
      (fun a b => a ≠ b) :=
  (claim_C9 [] "s" [⟨"a",0,0,1⟩, ⟨"a",0,0,1⟩]).1

end Pdf2Md
